import Mathlib

/-!
Verification of the WCA delegate group-assignment scripts (`main.py`, `check.py`).

Python strings are modelled as `List Char` (a string is its sequence of
characters).  Python dictionaries that the assignment pass mutates are
modelled as total functions updated functionally, and the mutating
functions are translated into state-passing Lean functions.
-/

/-- A Python string, modelled as its list of characters. -/
abbrev Str := List Char

/-- Python `s.split(" ")`: split on every single space character, keeping
empty components (so the result is never the empty list). -/
def pySplitSpace : Str → List Str
  | [] => [[]]
  | c :: rest =>
    if c = ' ' then [] :: pySplitSpace rest
    else
      match pySplitSpace rest with
      | [] => [[c]]
      | t :: ts => (c :: t) :: ts

/-- Python `s.split(" ")[-1]`: the trailing space-separated token. -/
def lastSpaceToken (s : Str) : Str := (pySplitSpace s).getLastD []

/-- Python `s.endswith(post)`. -/
def pyEndsWith (s post : Str) : Bool := post.isSuffixOf s

/-- `main.py` `filter_concurrent_groups`: partition the event's group labels
by whether they end with the trailing token of `group`.  The Python loop
appends each `g` to exactly one of two lists, which is the same as the two
filters below (returned in the order `(non_concurrent, concurrent)`). -/
def filter_concurrent_groups (group : Str) (groups : List Str) : List Str × List Str :=
  let group_number := lastSpaceToken group
  (groups.filter (fun g => !(pyEndsWith g group_number)),
   groups.filter (fun g => pyEndsWith g group_number))

/-- Join a list of tokens with single spaces (inverse of `pySplitSpace`). -/
def joinSpace : List Str → Str
  | [] => []
  | [t] => t
  | t :: ts => t ++ ' ' :: joinSpace ts

/-! ## Data model: pools and assignment maps -/

/-- An event's `groups` dictionary: group label → queue of competitor names
(the right end of the list is the back of the Python deque, where
`append` adds and `pop()` removes). -/
abbrev Pools := Str → List Str

/-- A role-assignment map: competitor name → event id → assigned group
label (the empty string means unassigned). -/
abbrev Assignments := Str → Str → Str

/-- Python `assignments[person][event] = group`: update one cell. -/
def setCell (a : Assignments) (person event v : Str) : Assignments :=
  fun q f => if q = person ∧ f = event then v else a q f

/-- `len(list(filter(lambda g: len(g) > 0, assignments[person].values())))`:
the number of non-empty entries in `person`'s row, whose keys are the
event ids in `events`. -/
def num_assignments_already_given (a : Assignments) (person : Str) (events : List Str) : Nat :=
  (events.filter (fun e => decide (a person e ≠ []))).length

/-- Result of one `assign_role_to_group` call: the returned boolean and the
final values of the two dictionaries the Python function mutates. -/
structure SelectResult where
  success : Bool
  all_groups : Pools
  assignments : Assignments

/-- `main.py` `assign_role_to_group`, with the mutation of `all_groups` and
`assignments` made explicit.  Walks `other_group_names` in order; for each
non-empty pool it pops the last element; scrambler mode
(`approved_scramblers = some _`) requires approved membership and a cap
check, judge mode (`approved_scramblers = none`) requires only that the
candidate is not a delegate.  Commits at most one assignment. -/
def assign_role_to_group (group : Str) (other_group_names : List Str)
    (all_groups : Pools) (assignments : Assignments) (event : Str)
    (delegates : List Str) (approved_scramblers : Option (List Str))
    (max_scramble_assignments_per_competitor : Nat) (events : List Str) : SelectResult :=
  match other_group_names with
  | [] => ⟨false, all_groups, assignments⟩
  | other_group :: rest =>
    if (all_groups other_group).length = 0 then
      assign_role_to_group group rest all_groups assignments event delegates
        approved_scramblers max_scramble_assignments_per_competitor events
    else
      let person := (all_groups other_group).getLastD []
      let popped : Pools :=
        fun g => if g = other_group then (all_groups other_group).dropLast else all_groups g
      match approved_scramblers with
      | some approved =>
        let n := num_assignments_already_given assignments person events
        if person ∈ approved ∧ n < max_scramble_assignments_per_competitor then
          ⟨true, popped, setCell assignments person event group⟩
        else
          assign_role_to_group group rest popped assignments event delegates
            (some approved) max_scramble_assignments_per_competitor events
      | none =>
        if person ∉ delegates then
          ⟨true, popped, setCell assignments person event group⟩
        else
          assign_role_to_group group rest popped assignments event delegates
            none max_scramble_assignments_per_competitor events

/-! ## The judge phase of `assign_scramblers_and_judges` -/

/-- The mutable state the judge phase of `assign_scramblers_and_judges`
works on while filling one group. -/
structure JudgeState where
  groups : Pools
  judging : Assignments
  scrambling : Assignments
  experienced_competitors : List Str
  judges_assigned_to_group : Nat
  experienced_competitor_attempts : Nat

/-- How a run of the judge-phase loop can fail to return a state. -/
inductive RunError where
  | outOfFuel
  | indexError
deriving DecidableEq

/-- One execution of the `else` branch of the judge-phase loop
(`main.py` lines 124-141): inspect `experienced_competitors[0]`
(an `IndexError` if the list is empty), test availability, and on success
write the judging cell, bump the judge count and `pop()` — which removes
the *last* element of the Python list.  Always increments the attempt
counter; the returned flag says whether the `break` is taken. -/
def fallback_step (group event : Str) (concurrent_group_names : List Str)
    (initial_num_experienced_competitors : Nat) (st : JudgeState) :
    Except RunError (JudgeState × Bool) :=
  match st.experienced_competitors with
  | [] => .error .indexError
  | person :: _ =>
    let clear_of_concurrent :=
      concurrent_group_names.all (fun cg => decide (person ∉ st.groups cg))
    let is_available := clear_of_concurrent
      && (st.judging person event).isEmpty && (st.scrambling person event).isEmpty
    let st1 := if is_available then
        { st with
          experienced_competitors := st.experienced_competitors.dropLast,
          judging := setCell st.judging person event group,
          judges_assigned_to_group := st.judges_assigned_to_group + 1 }
      else st
    let st2 := { st1 with
      experienced_competitor_attempts := st1.experienced_competitor_attempts + 1 }
    if st2.experienced_competitor_attempts > initial_num_experienced_competitors then
      .ok (st2, true)
    else
      .ok (st2, false)

/-- The judge-phase `while` loop of `assign_scramblers_and_judges`
(`main.py` lines 120-141), fuel-indexed.  While the quota is unmet it
tries `assign_role_to_group` on the non-concurrent pools as long as that
source has not failed, and otherwise runs the experienced-competitor
fallback; a failed selector call still commits its pool consumption. -/
def judge_phase (fuel : Nat) (group event : Str) (judges_per_group : Nat)
    (non_concurrent_group_names concurrent_group_names : List Str)
    (delegates : List Str) (max_scramble_assignments_per_competitor : Nat)
    (events : List Str) (initial_num_experienced_competitors : Nat)
    (judges_available_from_other_groups : Bool) (st : JudgeState) :
    Except RunError JudgeState :=
  match fuel with
  | 0 => .error .outOfFuel
  | fuel + 1 =>
    if st.judges_assigned_to_group < judges_per_group then
      if judges_available_from_other_groups then
        let r := assign_role_to_group group non_concurrent_group_names st.groups st.judging
          event delegates none max_scramble_assignments_per_competitor events
        if r.success then
          judge_phase fuel group event judges_per_group non_concurrent_group_names
            concurrent_group_names delegates max_scramble_assignments_per_competitor events
            initial_num_experienced_competitors true
            { st with groups := r.all_groups, judging := r.assignments,
                      judges_assigned_to_group := st.judges_assigned_to_group + 1 }
        else
          match fallback_step group event concurrent_group_names
              initial_num_experienced_competitors
              { st with groups := r.all_groups, judging := r.assignments } with
          | .error e => .error e
          | .ok (st1, stop) =>
            if stop then .ok st1
            else judge_phase fuel group event judges_per_group non_concurrent_group_names
              concurrent_group_names delegates max_scramble_assignments_per_competitor events
              initial_num_experienced_competitors false st1
      else
        match fallback_step group event concurrent_group_names
            initial_num_experienced_competitors st with
        | .error e => .error e
        | .ok (st1, stop) =>
          if stop then .ok st1
          else judge_phase fuel group event judges_per_group non_concurrent_group_names
            concurrent_group_names delegates max_scramble_assignments_per_competitor events
            initial_num_experienced_competitors false st1
    else
      .ok st

/-! ## Output projection (`make_output_csv_files`) -/

/-- `main.py` `make_output_csv_files`, one table at a time: rows are the
iterated `(competitor, per-event row)` entries of the assignment map, as
association pairs; the second component collects the names warned about
(judge table only: zero non-empty assignments and not a delegate). -/
def make_output_csv_file (is_judge_table : Bool)
    (assignments : List (Str × List (Str × Str))) (delegates : List Str) :
    List (Str × List (Str × Str)) × List Str :=
  match assignments with
  | [] => ([], [])
  | ca :: rest =>
    let r := make_output_csv_file is_judge_table rest delegates
    if 0 < (ca.2.filter (fun x => decide (x.2 ≠ []))).length then
      (ca :: r.1, r.2)
    else if is_judge_table ∧ ca.1 ∉ delegates then
      (r.1, ca.1 :: r.2)
    else
      r

/-! ## The verification pass (`check.py`) -/

/-- One `(competitor, event)` step of the `check.py` loop, returning the
value of the asserted Python expression
`compete != judge != scramble`, which by chained comparison is
`compete != judge and judge != scramble`.  The three compared values are
the trailing space-separated tokens of the competing group, the judging
assignment and the scrambling assignment, with the placeholders
`not competing` / `not judging` / `not scrambling` substituted for empty
tokens. -/
def check_roles (group judge_assignment scramble_assignment : Str) : Bool :=
  let compete := lastSpaceToken group
  let judge := lastSpaceToken judge_assignment
  let scramble := lastSpaceToken scramble_assignment
  let compete := if 0 < compete.length then compete else "not competing".toList
  let judge := if 0 < judge.length then judge else "not judging".toList
  let scramble := if 0 < scramble.length then scramble else "not scrambling".toList
  decide (compete ≠ judge) && decide (judge ≠ scramble)

/-! ## Sequences of scrambler-mode selector calls -/

/-- A sequence of scrambler-phase selector calls, each given by the group
being filled, its candidate source groups and the event; the pools and the
scrambling map are threaded through exactly as the driver does.  The
scrambling map is written by no other part of the assignment pass. -/
def runScramblerCalls (approved : List Str) (delegates : List Str)
    (max_scramble_assignments_per_competitor : Nat) (events : List Str)
    (calls : List (Str × List Str × Str)) (pools : Pools)
    (scrambling : Assignments) : Pools × Assignments :=
  match calls with
  | [] => (pools, scrambling)
  | (group, others, event) :: rest =>
    let r := assign_role_to_group group others pools scrambling event delegates
      (some approved) max_scramble_assignments_per_competitor events
    runScramblerCalls approved delegates max_scramble_assignments_per_competitor events
      rest r.all_groups r.assignments

/-! ## General lemmas about the string model -/

theorem pySplitSpace_ne_nil (s : Str) : pySplitSpace s ≠ [] := by
  match s with
  | [] => simp [pySplitSpace]
  | c :: rest =>
    unfold pySplitSpace
    by_cases hc : c = ' '
    · simp [hc]
    · simp only [hc, if_neg]
      cases h : pySplitSpace rest with
      | nil => simp
      | cons t ts => simp

theorem joinSpace_pySplitSpace (s : Str) : joinSpace (pySplitSpace s) = s := by
  induction s with
  | nil => rfl
  | cons c rest ih =>
    unfold pySplitSpace
    by_cases hc : c = ' '
    · subst hc
      simp only [if_pos rfl]
      cases h : pySplitSpace rest with
      | nil => exact absurd h (pySplitSpace_ne_nil rest)
      | cons t ts =>
        rw [h] at ih
        show ([] : Str) ++ ' ' :: joinSpace (t :: ts) = ' ' :: rest
        rw [ih]
        rfl
    · simp only [if_neg hc]
      cases h : pySplitSpace rest with
      | nil => exact absurd h (pySplitSpace_ne_nil rest)
      | cons t ts =>
        rw [h] at ih
        cases ts with
        | nil =>
          have ht : t = rest := ih
          simp [joinSpace, ht]
        | cons u us =>
          have : joinSpace ((c :: t) :: u :: us) = (c :: t) ++ ' ' :: joinSpace (u :: us) := rfl
          rw [this]
          have ih2 : t ++ ' ' :: joinSpace (u :: us) = rest := ih
          simp only [List.cons_append]
          rw [ih2]

theorem getLastD_irrel {α : Type} (l : List α) (h : l ≠ []) (a b : α) :
    l.getLastD a = l.getLastD b := by
  cases l with
  | nil => exact absurd rfl h
  | cons x xs => rw [List.getLastD_cons, List.getLastD_cons]

theorem getLastD_suffix_joinSpace (L : List Str) (h : L ≠ []) :
    L.getLastD [] <:+ joinSpace L := by
  induction L with
  | nil => exact absurd rfl h
  | cons t ts ih =>
    cases ts with
    | nil => exact List.suffix_refl t
    | cons u us =>
      have h1 : (t :: u :: us).getLastD [] = (u :: us).getLastD [] := by
        rw [List.getLastD_cons]
        exact getLastD_irrel (u :: us) (by simp) t []
      rw [h1]
      have h2 : (u :: us).getLastD [] <:+ joinSpace (u :: us) := ih (by simp)
      have h3 : joinSpace (t :: u :: us) = t ++ ' ' :: joinSpace (u :: us) := rfl
      rw [h3]
      exact h2.trans ((List.suffix_cons ' ' _).trans (List.suffix_append t _))

/-- The trailing space-separated token of a string is one of its suffixes. -/
theorem lastSpaceToken_suffix (s : Str) : lastSpaceToken s <:+ s := by
  have h := getLastD_suffix_joinSpace (pySplitSpace s) (pySplitSpace_ne_nil s)
  rwa [joinSpace_pySplitSpace] at h

theorem pyEndsWith_lastSpaceToken (s : Str) : pyEndsWith s (lastSpaceToken s) = true := by
  unfold pyEndsWith
  rw [List.isSuffixOf_iff_suffix]
  exact lastSpaceToken_suffix s

/-! ## Claim C1 -/

/-- C1: the verification pass is claimed to assert that the competing,
judging and scrambling values are pairwise distinct.  The asserted Python
expression is the chained comparison `compete != judge != scramble`, which
only checks `compete != judge` and `judge != scramble`: at the input below
the competing and scrambling slot tokens are equal (both `1`, all three
values non-empty), yet `check_roles` returns `true`, so no assertion
failure is raised. -/
theorem C1_checker_misses_compete_eq_scramble :
    check_roles "Red 1".toList "Blue 2".toList "Green 1".toList = true ∧
    lastSpaceToken "Red 1".toList = lastSpaceToken "Green 1".toList ∧
    lastSpaceToken "Red 1".toList ≠ [] ∧
    lastSpaceToken "Blue 2".toList ≠ [] := by
  refine ⟨by decide, by decide, by decide, by decide⟩

/-! ## Claim C3 -/

/-- C3 counterexample: the classifier is claimed to put `h` in the
concurrent list iff the last space-separated tokens of `h` and `g` are
equal.  With `g = "Red 1"` and `h = "Blue 11"` the code places `h` in the
concurrent list although the last tokens (`11` and `1`) differ, because
the test is `h.endswith(g.split(" ")[-1])`, a suffix match on the whole
label. -/
theorem C3_counterexample :
    "Blue 11".toList ∈ (filter_concurrent_groups "Red 1".toList ["Blue 11".toList]).2 ∧
    lastSpaceToken "Blue 11".toList ≠ lastSpaceToken "Red 1".toList := by
  refine ⟨by decide, by decide⟩

/-- C3 (amended): a member `h` of `S` is placed in the concurrent list iff
`h` ends, as a whole-label suffix, with the trailing space-separated token
of `g`; otherwise it is placed in the non-concurrent list. -/
theorem C3_concurrent_iff_suffix_match (g : Str) (S : List Str) (h : Str) :
    (h ∈ (filter_concurrent_groups g S).2 ↔
      h ∈ S ∧ pyEndsWith h (lastSpaceToken g) = true) ∧
    (h ∈ (filter_concurrent_groups g S).1 ↔
      h ∈ S ∧ ¬ pyEndsWith h (lastSpaceToken g) = true) := by
  unfold filter_concurrent_groups
  constructor
  · simp [List.mem_filter]
  · simp [List.mem_filter]

/-! ## Claim C4 -/

/-- C4 counterexample: the group being classified is claimed to appear in
neither returned list, but the code puts it in the concurrent list (every
label ends with its own trailing token). -/
theorem C4_counterexample :
    "Red 1".toList ∈ (filter_concurrent_groups "Red 1".toList ["Red 1".toList]).2 := by
  decide

/-- C4 (amended): the group being classified, when a member of `S`, is not
excluded: it always lands in the concurrent list (its label ends with its
own trailing token) and never in the non-concurrent list. -/
theorem C4_self_lands_in_concurrent (g : Str) (S : List Str) (hg : g ∈ S) :
    g ∈ (filter_concurrent_groups g S).2 ∧ g ∉ (filter_concurrent_groups g S).1 := by
  unfold filter_concurrent_groups
  constructor
  · simp only [List.mem_filter]
    exact ⟨hg, pyEndsWith_lastSpaceToken g⟩
  · simp only [List.mem_filter]
    intro hmem
    rw [pyEndsWith_lastSpaceToken g] at hmem
    simp at hmem

/-- C4 witness: the amended statement applied at `g = "Red 1"` in a
two-element group set. -/
theorem C4_self_lands_in_concurrent_witness :
    "Red 1".toList ∈
      (filter_concurrent_groups "Red 1".toList ["Red 1".toList, "Red 2".toList]).2 ∧
    "Red 1".toList ∉
      (filter_concurrent_groups "Red 1".toList ["Red 1".toList, "Red 2".toList]).1 :=
  C4_self_lands_in_concurrent "Red 1".toList ["Red 1".toList, "Red 2".toList] (by decide)

/-! ## Claim C2 -/

/-- C2 counterexample: delegate exclusion is claimed to be absolute for
both roles, but the scrambler branch of `assign_role_to_group` checks only
approved-scrambler membership and the cap.  Here the delegate `D` is in
the approved-scrambler set and is committed as a scrambler. -/
theorem C2_counterexample :
    (assign_role_to_group "Red 1".toList ["Red 2".toList]
      (fun g => if g = "Red 2".toList then [['D']] else [])
      (fun _ _ => []) "333".toList [['D']] (some [['D']]) 1
      ["333".toList]).assignments ['D'] "333".toList = "Red 1".toList ∧
    ['D'] ∈ [['D']] := by
  refine ⟨by decide, by decide⟩

/-- C2 (amended): the judge-mode selector never writes a delegate's row;
the scrambler-mode selector never writes the row of a delegate who is not
in the approved-scrambler set (a delegate who is approved can be written);
and the experienced-competitor fallback writes only rows of members of the
experienced pool, which the driver builds excluding delegates. -/
theorem C2_delegate_exclusion_amended
    (group : Str) (others : List Str) (pools : Pools) (a : Assignments)
    (event : Str) (delegates : List Str) (approved : List Str)
    (maxs : Nat) (events : List Str) (d : Str) (hd : d ∈ delegates) :
    (∀ e, (assign_role_to_group group others pools a event delegates none maxs
      events).assignments d e = a d e) ∧
    (d ∉ approved →
      ∀ e, (assign_role_to_group group others pools a event delegates (some approved)
        maxs events).assignments d e = a d e) ∧
    (∀ (concurrent : List Str) (ini : Nat) (st st1 : JudgeState) (stop : Bool),
      fallback_step group event concurrent ini st = .ok (st1, stop) →
      d ∉ st.experienced_competitors →
      ∀ e, st1.judging d e = st.judging d e) := by
  refine ⟨?_, ?_, ?_⟩
  · induction others generalizing pools with
    | nil => intro e; rfl
    | cons og rest ih =>
      intro e
      by_cases h0 : (pools og).length = 0
      · simp only [assign_role_to_group, if_pos h0]
        exact ih pools e
      · simp only [assign_role_to_group, if_neg h0]
        by_cases hpd : (pools og).getLastD [] ∉ delegates
        · rw [if_pos hpd]
          show setCell a ((pools og).getLastD []) event group d e = a d e
          unfold setCell
          have hne : ¬(d = (pools og).getLastD [] ∧ e = event) := by
            intro hcon
            exact hpd (hcon.1 ▸ hd)
          rw [if_neg hne]
        · rw [if_neg hpd]
          exact ih _ e
  · intro hda
    induction others generalizing pools with
    | nil => intro e; rfl
    | cons og rest ih =>
      intro e
      by_cases h0 : (pools og).length = 0
      · simp only [assign_role_to_group, if_pos h0]
        exact ih pools e
      · simp only [assign_role_to_group, if_neg h0]
        by_cases hcond : (pools og).getLastD [] ∈ approved ∧
            num_assignments_already_given a ((pools og).getLastD []) events < maxs
        · rw [if_pos hcond]
          show setCell a ((pools og).getLastD []) event group d e = a d e
          unfold setCell
          have hne : ¬(d = (pools og).getLastD [] ∧ e = event) := by
            intro hcon
            exact hda (hcon.1 ▸ hcond.1)
          rw [if_neg hne]
        · rw [if_neg hcond]
          exact ih _ e
  · intro concurrent ini st st1 stop heq hdnot e
    obtain ⟨gr, ju, sc, expc, ja, att⟩ := st
    cases expc with
    | nil => simp [fallback_step] at heq
    | cons person others2 =>
      simp only at hdnot
      have hdp : d ≠ person := by
        intro hcon
        exact hdnot (by rw [hcon]; exact List.mem_cons_self person others2)
      simp only [fallback_step] at heq
      split at heq <;> split at heq <;>
        simp only [Except.ok.injEq, Prod.mk.injEq] at heq <;>
        rw [← heq.1] <;>
        first
          | rfl
          | (show setCell ju person event group d e = ju d e
             unfold setCell
             exact if_neg (fun hcon => hdp hcon.1))

/-- C2 witness: the judge-mode part of the amended statement applied at a
concrete pool whose only candidate is a delegate. -/
theorem C2_delegate_exclusion_amended_witness :
    (assign_role_to_group "Red 1".toList ["Red 2".toList]
      (fun g => if g = "Red 2".toList then [['D'], ['A']] else [])
      (fun _ _ => []) "333".toList [['D']] none 1
      ["333".toList]).assignments ['D'] "333".toList = [] :=
  (C2_delegate_exclusion_amended "Red 1".toList ["Red 2".toList]
    (fun g => if g = "Red 2".toList then [['D'], ['A']] else [])
    (fun _ _ => []) "333".toList [['D']] [['D']] 1 ["333".toList]
    ['D'] (by decide)).1 "333".toList

/-! ## Claim C10 -/

/-- C10: a failed selector call leaves the assignment map it was given
entirely unchanged, and a successful call writes exactly one
`(competitor, event)` cell, namely `assignments[person][event] = group`
for the committed candidate. -/
theorem C10_selector_writes_at_most_one_cell
    (group : Str) (others : List Str) (pools : Pools) (a : Assignments)
    (event : Str) (delegates : List Str) (approved : Option (List Str))
    (maxs : Nat) (events : List Str) :
    ((assign_role_to_group group others pools a event delegates approved maxs
        events).success = false →
      (assign_role_to_group group others pools a event delegates approved maxs
        events).assignments = a) ∧
    ((assign_role_to_group group others pools a event delegates approved maxs
        events).success = true →
      ∃ person, (assign_role_to_group group others pools a event delegates approved
        maxs events).assignments = setCell a person event group) := by
  induction others generalizing pools with
  | nil => exact ⟨fun _ => rfl, fun h => Bool.noConfusion h⟩
  | cons og rest ih =>
    by_cases h0 : (pools og).length = 0
    · simp only [assign_role_to_group, if_pos h0]
      exact ih pools
    · cases approved with
      | none =>
        simp only [assign_role_to_group, if_neg h0]
        by_cases hpd : (pools og).getLastD [] ∉ delegates
        · rw [if_pos hpd]
          exact ⟨fun h => Bool.noConfusion h, fun _ => ⟨(pools og).getLastD [], rfl⟩⟩
        · rw [if_neg hpd]
          exact ih _
      | some app =>
        simp only [assign_role_to_group, if_neg h0]
        by_cases hcond : (pools og).getLastD [] ∈ app ∧
            num_assignments_already_given a ((pools og).getLastD []) events < maxs
        · rw [if_pos hcond]
          exact ⟨fun h => Bool.noConfusion h, fun _ => ⟨(pools og).getLastD [], rfl⟩⟩
        · rw [if_neg hcond]
          exact ih _

/-- C10 witness: the failure part applied to a call whose candidate list
is empty, which fails and leaves the map untouched. -/
theorem C10_selector_writes_at_most_one_cell_witness :
    (assign_role_to_group "Red 1".toList [] (fun _ => [])
      (fun _ _ => []) "333".toList [] none 1 []).assignments =
      (fun _ _ => ([] : Str)) :=
  (C10_selector_writes_at_most_one_cell "Red 1".toList [] (fun _ => [])
    (fun _ _ => []) "333".toList [] none 1 []).1 rfl

/-! ## Claim C5 -/

/-- Changing a row at one key at most adds one to its non-empty count,
provided the key list has no duplicates. -/
theorem countP_update_le (pg pf : Str → Bool) (ev : Str)
    (hsame : ∀ e, e ≠ ev → pg e = pf e) :
    ∀ (events : List Str), events.Nodup →
      events.countP pg ≤ events.countP pf + 1 := by
  intro events
  induction events with
  | nil => simp
  | cons e rest ih =>
    intro hnd
    obtain ⟨hnotin, hnd2⟩ := List.nodup_cons.mp hnd
    rw [List.countP_cons, List.countP_cons]
    by_cases he : e = ev
    · subst he
      have htails : rest.countP pg = rest.countP pf := by
        apply List.countP_congr
        intro x hx
        rw [hsame x (fun hxe => hnotin (hxe ▸ hx))]
      rw [htails]
      have h1 : (if pg e = true then 1 else 0) ≤ 1 := by split <;> omega
      omega
    · rw [hsame e he]
      have h2 := ih hnd2
      omega

/-- A single scrambler-mode selector call preserves the scrambling cap:
if every competitor's non-empty count is at most the configured maximum
beforehand, it still is afterwards (the eligibility branch only commits
when the candidate's count is strictly below the maximum). -/
theorem assign_role_to_group_scramble_cap
    (group : Str) (others : List Str) (pools : Pools) (a : Assignments)
    (event : Str) (delegates : List Str) (approved : List Str)
    (maxs : Nat) (events : List Str) (hnd : events.Nodup)
    (hcap : ∀ p, num_assignments_already_given a p events ≤ maxs) :
    ∀ p, num_assignments_already_given
      (assign_role_to_group group others pools a event delegates (some approved)
        maxs events).assignments p events ≤ maxs := by
  induction others generalizing pools with
  | nil => exact hcap
  | cons og rest ih =>
    intro p
    by_cases h0 : (pools og).length = 0
    · simp only [assign_role_to_group, if_pos h0]
      exact ih pools p
    · simp only [assign_role_to_group, if_neg h0]
      by_cases hcond : (pools og).getLastD [] ∈ approved ∧
          num_assignments_already_given a ((pools og).getLastD []) events < maxs
      · rw [if_pos hcond]
        show num_assignments_already_given
          (setCell a ((pools og).getLastD []) event group) p events ≤ maxs
        by_cases hp : p = (pools og).getLastD []
        · unfold num_assignments_already_given at hcond ⊢
          rw [← List.countP_eq_length_filter] at hcond
          rw [← List.countP_eq_length_filter]
          have hstep := countP_update_le
            (fun e => decide (setCell a ((pools og).getLastD []) event group p e ≠ []))
            (fun e => decide (a p e ≠ [])) event
            (fun e he => by
              show decide (setCell a ((pools og).getLastD []) event group p e ≠ []) =
                decide (a p e ≠ [])
              unfold setCell
              rw [if_neg (fun hcon => he hcon.2)])
            events hnd
          rw [hp] at hstep ⊢
          have hlt := hcond.2
          omega
        · have hrow : ∀ e, setCell a ((pools og).getLastD []) event group p e = a p e := by
            intro e
            unfold setCell
            rw [if_neg (fun hcon => hp hcon.1)]
          unfold num_assignments_already_given
          have : events.filter
              (fun e => decide (setCell a ((pools og).getLastD []) event group p e ≠ [])) =
              events.filter (fun e => decide (a p e ≠ [])) := by
            apply List.filter_congr
            intro x hx
            rw [hrow x]
          rw [this]
          exact hcap p
      · rw [if_neg hcond]
        exact ih _ p

/-- C5: starting from a scrambling map in which every competitor holds at
most `maxScrambleAssignmentsPerCompetitor` non-empty entries, after any
sequence of scrambler-mode selector calls (the only writes the assignment
pass makes to the scrambling map) every competitor still holds at most
that many non-empty entries. -/
theorem C5_scramble_cap_preserved (approved delegates : List Str) (maxs : Nat)
    (events : List Str) (calls : List (Str × List Str × Str)) (pools : Pools)
    (scrambling : Assignments) (hnd : events.Nodup)
    (hcap : ∀ p, num_assignments_already_given scrambling p events ≤ maxs) :
    ∀ p, num_assignments_already_given
      (runScramblerCalls approved delegates maxs events calls pools scrambling).2
      p events ≤ maxs := by
  induction calls generalizing pools scrambling with
  | nil => exact hcap
  | cons c rest ih =>
    obtain ⟨group, others, event⟩ := c
    exact ih _ _ (assign_role_to_group_scramble_cap group others pools scrambling
      event delegates approved maxs events hnd hcap)

/-- C5 witness: the cap statement applied to one concrete call that
commits a scrambler, evaluated at the committed competitor. -/
theorem C5_scramble_cap_preserved_witness :
    num_assignments_already_given
      (runScramblerCalls [['A']] [] 1 ["333".toList]
        [("Red 1".toList, ["Red 2".toList], "333".toList)]
        (fun g => if g = "Red 2".toList then [['A']] else [])
        (fun _ _ => [])).2 ['A'] ["333".toList] ≤ 1 :=
  C5_scramble_cap_preserved [['A']] [] 1 ["333".toList]
    [("Red 1".toList, ["Red 2".toList], "333".toList)]
    (fun g => if g = "Red 2".toList then [['A']] else [])
    (fun _ _ => []) (by decide)
    (fun p => by simp [num_assignments_already_given]) ['A']

/-! ## Claim C8 -/

/-- Applying the pool update of one pop: the updated pool at any key is an
initial segment of the old one. -/
theorem popped_apply (pools : Pools) (og g : Str) :
    (fun g1 => if g1 = og then (pools og).dropLast else pools g1) g =
    (pools g).take (if g = og then (pools g).length - 1 else (pools g).length) := by
  by_cases hg : g = og
  · subst hg
    simp [List.dropLast_eq_take]
  · simp [hg]

/-- Each pool after a selector call is an initial segment of what it was
before: candidates are only ever popped from the back, never re-inserted. -/
theorem assign_role_to_group_pools_take
    (group : Str) (others : List Str) (pools : Pools) (a : Assignments)
    (event : Str) (delegates : List Str) (approved : Option (List Str))
    (maxs : Nat) (events : List Str) (g : Str) :
    ∃ k, (assign_role_to_group group others pools a event delegates approved maxs
      events).all_groups g = (pools g).take k := by
  induction others generalizing pools a with
  | nil => exact ⟨(pools g).length, (List.take_length (pools g)).symm⟩
  | cons og rest ih =>
    by_cases h0 : (pools og).length = 0
    · simp only [assign_role_to_group, if_pos h0]
      exact ih pools a
    · cases approved with
      | none =>
        simp only [assign_role_to_group, if_neg h0]
        by_cases hpd : (pools og).getLastD [] ∉ delegates
        · rw [if_pos hpd]
          exact ⟨_, popped_apply pools og g⟩
        · rw [if_neg hpd]
          obtain ⟨k, hk⟩ :=
            ih (fun g1 => if g1 = og then (pools og).dropLast else pools g1) a
          by_cases hg : g = og
          · subst hg
            rw [if_pos rfl] at hk
            rw [List.dropLast_eq_take] at hk ⊢
            rw [List.take_take] at hk
            exact ⟨_, hk⟩
          · rw [if_neg hg] at hk
            exact ⟨k, hk⟩
      | some app =>
        simp only [assign_role_to_group, if_neg h0]
        by_cases hcond : (pools og).getLastD [] ∈ app ∧
            num_assignments_already_given a ((pools og).getLastD []) events < maxs
        · rw [if_pos hcond]
          exact ⟨_, popped_apply pools og g⟩
        · rw [if_neg hcond]
          obtain ⟨k, hk⟩ :=
            ih (fun g1 => if g1 = og then (pools og).dropLast else pools g1) a
          by_cases hg : g = og
          · subst hg
            rw [if_pos rfl] at hk
            rw [List.dropLast_eq_take] at hk ⊢
            rw [List.take_take] at hk
            exact ⟨_, hk⟩
          · rw [if_neg hg] at hk
            exact ⟨k, hk⟩

/-- C8: the selector only consumes candidates.  For duplicate-free pools,
after a call each pool equals an initial segment of its previous value,
and every consumed candidate (the dropped tail segment, i.e. everyone the
call popped, eligible or not) is absent from the pool afterwards — so a
rejected candidate can never be re-drawn from that group's pool by any
later call. -/
theorem C8_popped_candidates_never_return
    (group : Str) (others : List Str) (pools : Pools) (a : Assignments)
    (event : Str) (delegates : List Str) (approved : Option (List Str))
    (maxs : Nat) (events : List Str) (hnd : ∀ g, (pools g).Nodup) (g : Str) :
    ∃ k, (assign_role_to_group group others pools a event delegates approved maxs
        events).all_groups g = (pools g).take k ∧
      ∀ c ∈ (pools g).drop k,
        c ∉ (assign_role_to_group group others pools a event delegates approved maxs
          events).all_groups g := by
  obtain ⟨k, hk⟩ := assign_role_to_group_pools_take group others pools a event
    delegates approved maxs events g
  refine ⟨k, hk, fun c hc hcmem => ?_⟩
  rw [hk] at hcmem
  exact List.disjoint_take_drop (hnd g) (le_refl k) hcmem hc

/-- C8 witness: a judge-mode call that pops and rejects the delegate at
the back of the only candidate pool. -/
theorem C8_popped_candidates_never_return_witness :
    ∃ k, (assign_role_to_group "Red 1".toList ["Red 2".toList]
        (fun g => if g = "Red 2".toList then [['A'], ['B']] else [])
        (fun _ _ => []) "333".toList [['B']] none 1 []).all_groups "Red 2".toList =
      ((fun g => if g = "Red 2".toList then [['A'], ['B']] else []) "Red 2".toList).take k ∧
      ∀ c ∈ ((fun g => if g = "Red 2".toList then [['A'], ['B']] else [])
          "Red 2".toList).drop k,
        c ∉ (assign_role_to_group "Red 1".toList ["Red 2".toList]
          (fun g => if g = "Red 2".toList then [['A'], ['B']] else [])
          (fun _ _ => []) "333".toList [['B']] none 1 []).all_groups "Red 2".toList :=
  C8_popped_candidates_never_return "Red 1".toList ["Red 2".toList]
    (fun g => if g = "Red 2".toList then [['A'], ['B']] else [])
    (fun _ _ => []) "333".toList [['B']] none 1 []
    (fun g => by dsimp only; split <;> decide) "Red 2".toList

/-! ## Claim C6 -/

/-- C6: in the judge-phase fallback the eligible front candidate `A` is
committed as judge (`judging["A"]["333"] = "Red 1"`), but the element
removed from the experienced pool is `B`, the *last* element
(`list.pop()` pops from the back), so the committed competitor `A` is
still present in the pool afterwards — contradicting the claim that the
committed candidate is the one removed. -/
theorem C6_commit_pops_wrong_end :
    (judge_phase 3 "Red 1".toList "333".toList 1 [] [] [] 1 [] 2 true
      ⟨fun _ => [], fun _ _ => [], fun _ _ => [], [['A'], ['B']], 0, 0⟩).map
      (fun s => (s.judging ['A'] "333".toList, s.experienced_competitors,
        s.judges_assigned_to_group)) =
    .ok ("Red 1".toList, [['A']], 1) := by
  rfl

/-! ## Claim C7 -/

/-- C7: entering the judge-phase fallback with an empty experienced pool
(quota 1, no candidate pools) evaluates `experienced_competitors[0]` on an
empty list: the run raises `IndexError` instead of warning and
continuing. -/
theorem C7_empty_pool_raises :
    judge_phase 3 "Red 1".toList "333".toList 1 [] [] [] 1 [] 0 true
      ⟨fun _ => [], fun _ _ => [], fun _ _ => [], [], 0, 0⟩ =
    .error .indexError := by
  rfl

/-! ## Claim C9 -/

/-- C9: a competitor's entry is emitted as a row iff it holds at least one
non-empty assignment; and a name is warned about iff this is the judging
table, the competitor is not a delegate, and their entry has zero
non-empty assignments (in particular the scrambling table produces no
warnings). -/
theorem C9_output_rows_and_warnings (is_judge_table : Bool)
    (assignments : List (Str × List (Str × Str))) (delegates : List Str) :
    (∀ ca, ca ∈ (make_output_csv_file is_judge_table assignments delegates).1 ↔
      ca ∈ assignments ∧ 0 < (ca.2.filter (fun x => decide (x.2 ≠ []))).length) ∧
    (∀ n, n ∈ (make_output_csv_file is_judge_table assignments delegates).2 ↔
      is_judge_table = true ∧ n ∉ delegates ∧
        ∃ row, (n, row) ∈ assignments ∧
          (row.filter (fun x => decide (x.2 ≠ []))).length = 0) := by
  induction assignments with
  | nil =>
    constructor
    · intro ca
      simp [make_output_csv_file]
    · intro n
      simp [make_output_csv_file]
  | cons ca rest ih =>
    obtain ⟨hrow, hwarn⟩ := ih
    constructor
    · intro x
      simp only [make_output_csv_file]
      by_cases hc : 0 < (ca.2.filter (fun x => decide (x.2 ≠ []))).length
      · rw [if_pos hc]
        dsimp only
        constructor
        · intro hx
          rcases List.mem_cons.mp hx with rfl | h1
          · exact ⟨List.mem_cons_self _ _, hc⟩
          · obtain ⟨h2, h3⟩ := (hrow x).mp h1
            exact ⟨List.mem_cons_of_mem _ h2, h3⟩
        · rintro ⟨hmem, hcnt⟩
          rcases List.mem_cons.mp hmem with rfl | h1
          · exact List.mem_cons_self _ _
          · exact List.mem_cons_of_mem _ ((hrow x).mpr ⟨h1, hcnt⟩)
      · rw [if_neg hc]
        have hproj : (if is_judge_table = true ∧ ca.1 ∉ delegates then
            ((make_output_csv_file is_judge_table rest delegates).1,
              ca.1 :: (make_output_csv_file is_judge_table rest delegates).2)
          else make_output_csv_file is_judge_table rest delegates).1 =
            (make_output_csv_file is_judge_table rest delegates).1 := by
          split
          · rfl
          · rfl
        rw [hproj]
        constructor
        · intro hx
          obtain ⟨h2, h3⟩ := (hrow x).mp hx
          exact ⟨List.mem_cons_of_mem _ h2, h3⟩
        · rintro ⟨hmem, hcnt⟩
          rcases List.mem_cons.mp hmem with rfl | h1
          · exact absurd hcnt hc
          · exact (hrow x).mpr ⟨h1, hcnt⟩
    · intro n
      simp only [make_output_csv_file]
      by_cases hc : 0 < (ca.2.filter (fun x => decide (x.2 ≠ []))).length
      · rw [if_pos hc]
        dsimp only
        constructor
        · intro hx
          obtain ⟨hj, hd, row, hmem, hcnt⟩ := (hwarn n).mp hx
          exact ⟨hj, hd, row, List.mem_cons_of_mem _ hmem, hcnt⟩
        · rintro ⟨hj, hd, row, hmem, hcnt⟩
          rcases List.mem_cons.mp hmem with heq | h1
          · have h2 : ca.2 = row := by rw [← heq]
            rw [← h2] at hcnt
            omega
          · exact (hwarn n).mpr ⟨hj, hd, row, h1, hcnt⟩
      · rw [if_neg hc]
        by_cases hj2 : is_judge_table = true ∧ ca.1 ∉ delegates
        · rw [if_pos hj2]
          dsimp only
          constructor
          · intro hx
            rcases List.mem_cons.mp hx with rfl | h1
            · refine ⟨hj2.1, hj2.2, ca.2, ?_, ?_⟩
              · have h3 : (ca.1, ca.2) = ca := rfl
                rw [h3]
                exact List.mem_cons_self _ _
              · omega
            · obtain ⟨hja, hd, row, hmem, hcnt⟩ := (hwarn n).mp h1
              exact ⟨hja, hd, row, List.mem_cons_of_mem _ hmem, hcnt⟩
          · rintro ⟨hja, hd, row, hmem, hcnt⟩
            rcases List.mem_cons.mp hmem with heq | h1
            · have hn : n = ca.1 := by rw [← heq]
              rw [hn]
              exact List.mem_cons_self _ _
            · exact List.mem_cons_of_mem _ ((hwarn n).mpr ⟨hja, hd, row, h1, hcnt⟩)
        · rw [if_neg hj2]
          constructor
          · intro hx
            obtain ⟨hja, hd, row, hmem, hcnt⟩ := (hwarn n).mp hx
            exact ⟨hja, hd, row, List.mem_cons_of_mem _ hmem, hcnt⟩
          · rintro ⟨hja, hd, row, hmem, hcnt⟩
            rcases List.mem_cons.mp hmem with heq | h1
            · exfalso
              apply hj2
              refine ⟨hja, ?_⟩
              have hn : n = ca.1 := by rw [← heq]
              exact hn ▸ hd
            · exact (hwarn n).mpr ⟨hja, hd, row, h1, hcnt⟩

/-- C3 witness: the amended classification statement applied at the
concrete pair of labels from the counterexample. -/
theorem C3_concurrent_iff_suffix_match_witness :
    ("Blue 11".toList ∈
        (filter_concurrent_groups "Red 1".toList ["Blue 11".toList]).2 ↔
      "Blue 11".toList ∈ ["Blue 11".toList] ∧
        pyEndsWith "Blue 11".toList (lastSpaceToken "Red 1".toList) = true) ∧
    ("Blue 11".toList ∈
        (filter_concurrent_groups "Red 1".toList ["Blue 11".toList]).1 ↔
      "Blue 11".toList ∈ ["Blue 11".toList] ∧
        ¬ pyEndsWith "Blue 11".toList (lastSpaceToken "Red 1".toList) = true) :=
  C3_concurrent_iff_suffix_match "Red 1".toList ["Blue 11".toList] "Blue 11".toList

/-- C9 witness: the row part of the statement applied to a singleton
judging table whose only competitor has one non-empty assignment. -/
theorem C9_output_rows_and_warnings_witness :
    (['A'], [("333".toList, "Red 1".toList)]) ∈
      (make_output_csv_file true [(['A'], [("333".toList, "Red 1".toList)])] []).1 ↔
    (['A'], [("333".toList, "Red 1".toList)]) ∈
        [(['A'], [("333".toList, "Red 1".toList)])] ∧
      0 < ([("333".toList, "Red 1".toList)].filter
        (fun x => decide (x.2 ≠ []))).length :=
  (C9_output_rows_and_warnings true [(['A'], [("333".toList, "Red 1".toList)])] []).1
    (['A'], [("333".toList, "Red 1".toList)])
